import Mathlib

/-!
Shallow embedding of the 2D computational-geometry kernel (`geometry.py`):
points, lines, segments and polygons with their orientation, intersection,
distance, convexity and containment operations.  Python floats are modelled
as real numbers; `cmath.phase` is the two-argument arctangent; the Python
float modulo `a % b` (for `b > 0`) is `a - b * ⌊a / b⌋`; float division,
which raises `ZeroDivisionError` on a zero divisor, is modelled with
`Option`.
-/

open Real

open scoped Classical

noncomputable section

/-- Tolerance constant from the source: `EPS = 1e-8`. -/
def EPS : ℝ := 1e-8

/-- Source constant `PI = cmath.pi`. -/
def PI : ℝ := Real.pi

/-- Source constant `TAU = cmath.pi * 2`. -/
def TAU : ℝ := Real.pi * 2

/-- Source constant `INF = float("inf")`, modelled as the top element of
`WithTop ℝ`. -/
def INF : WithTop ℝ := ⊤

/-- Python float modulo `a % b` for `b > 0`: the representative of `a`
modulo `b` lying in `[0, b)`, namely `a - b * ⌊a / b⌋`. -/
def fmod (a b : ℝ) : ℝ := a - b * ⌊a / b⌋

/-- The two-argument arctangent: `atan2 y x` is the angle of the vector
`(x, y)`, in `(-π, π]`.  This is `cmath.phase (x + y*i)`. -/
def atan2 (y x : ℝ) : ℝ :=
  if 0 < x then Real.arctan (y / x)
  else if x < 0 ∧ 0 ≤ y then Real.arctan (y / x) + PI
  else if x < 0 ∧ y < 0 then Real.arctan (y / x) - PI
  else if x = 0 ∧ 0 < y then PI / 2
  else if x = 0 ∧ y < 0 then -(PI / 2)
  else 0

/-- Class `Point`: a 2D point.  The source stores a Python `complex`; here
we store its real and imaginary parts. -/
structure Point where
  x : ℝ
  y : ℝ

namespace Point

/-- Constant `Point.CCW_COUNTER_CLOCKWISE = 1`. -/
def CCW_COUNTER_CLOCKWISE : ℤ := 1

/-- Constant `Point.CCW_CLOCKWISE = -1`. -/
def CCW_CLOCKWISE : ℤ := -1

/-- Constant `Point.CCW_ONLINE_BACK = 2`. -/
def CCW_ONLINE_BACK : ℤ := 2

/-- Constant `Point.CCW_ONLINE_FRONT = -2`. -/
def CCW_ONLINE_FRONT : ℤ := -2

/-- Constant `Point.CCW_ON_SEGMENT = 0`. -/
def CCW_ON_SEGMENT : ℤ := 0

/-- `Point.__add__`. -/
instance : Add Point := ⟨fun p q => ⟨p.x + q.x, p.y + q.y⟩⟩

/-- `Point.__sub__`. -/
instance : Sub Point := ⟨fun p q => ⟨p.x - q.x, p.y - q.y⟩⟩

/-- `Point.__neg__`. -/
instance : Neg Point := ⟨fun p => ⟨-p.x, -p.y⟩⟩

/-- `Point.from_rect(x, y)`. -/
def from_rect (x y : ℝ) : Point := ⟨x, y⟩

/-- `Point.from_polar(r, phi) = Point(cmath.rect(r, phi))`. -/
def from_polar (r phi : ℝ) : Point := ⟨r * Real.cos phi, r * Real.sin phi⟩

/-- `Point.__abs__`: the absolute value of the underlying complex number,
`abs (x + y*i) = sqrt (x^2 + y^2)`. -/
def cabs (p : Point) : ℝ := Real.sqrt (p.x ^ 2 + p.y ^ 2)

/-- `Point.__eq__`: tolerance-based equality, `abs (self.c - p.c) < EPS`. -/
def eqv (self p : Point) : Prop := cabs (self - p) < EPS

/-- `Point.dot`. -/
def dot (self p : Point) : ℝ := self.x * p.x + self.y * p.y

/-- `Point.det`: the 2D cross product. -/
def det (self p : Point) : ℝ := self.x * p.y - self.y * p.x

/-- `Point.dist`. -/
def dist (self p : Point) : ℝ := cabs (self - p)

/-- `Point.norm`: distance from the origin. -/
def norm (self : Point) : ℝ := cabs self

/-- `Point.phase`: `cmath.phase(self.c)`. -/
def phase (self : Point) : ℝ := atan2 self.y self.x

/-- `Point.angle(p, q)`:
`(cmath.phase(q.c - self.c) - cmath.phase(p.c - self.c) + PI) % TAU - PI`. -/
def angle (self p q : Point) : ℝ :=
  fmod ((q - self).phase - (p - self).phase + PI) TAU - PI

/-- `Point.ccw(a, b, c)`: five-way classification of `c` against the
directed segment `a -> b`. -/
def ccw (a b c : Point) : ℤ :=
  let b' := b - a
  let c' := c - a
  let d := b'.det c'
  if d > EPS then CCW_COUNTER_CLOCKWISE
  else if d < -EPS then CCW_CLOCKWISE
  else if b'.dot c' < -EPS then CCW_ONLINE_BACK
  else if c'.norm - b'.norm > EPS then CCW_ONLINE_FRONT
  else CCW_ON_SEGMENT

/-- `Point.on_segment(p, q, allow_side)`.  The Python default for
`allow_side` is `True`; callers here always pass it explicitly. -/
def on_segment (self p q : Point) (allow_side : Bool) : Bool :=
  if allow_side = false ∧ (self.eqv p ∨ self.eqv q) then false
  else if |(p - self).det (q - self)| < EPS ∧ (p - self).dot (q - self) < EPS
    then true else false

end Point

/-- Class `Line`: the line `a*x + b*y + c = 0`. -/
structure Line where
  a : ℝ
  b : ℝ
  c : ℝ

namespace Line

/-- `Line.from_segment(p1, p2)`. -/
def from_segment (p1 p2 : Point) : Line :=
  ⟨p2.y - p1.y, p1.x - p2.x, p2.y * (p2.x - p1.x) - p2.x * (p2.y - p1.y)⟩

/-- `Line.gradient`: `INF if self.b == 0 else -self.a / self.b`. -/
def gradient (l : Line) : WithTop ℝ :=
  if l.b = 0 then INF else ↑(-l.a / l.b)

/-- `Line.intercept`: `INF if self.b == 0 else -self.c / self.b`. -/
def intercept (l : Line) : WithTop ℝ :=
  if l.b = 0 then INF else ↑(-l.c / l.b)

/-- `Line.is_parallel_to(l)`: cross product of the normal vectors within
EPS of zero. -/
def is_parallel_to (self l : Line) : Bool :=
  if |(Point.from_rect self.a self.b).det (Point.from_rect l.a l.b)| < EPS
    then true else false

/-- `Line.intersection_point(l)`: Cramer's rule; `None` when the
determinant is within EPS of zero. -/
def intersection_point (self l : Line) : Option Point :=
  let d := self.a * l.b - l.a * self.b
  if |d| < EPS then none
  else some (Point.from_rect ((self.b * l.c - l.b * self.c) / d)
                             ((l.a * self.c - self.a * l.c) / d))

end Line

/-- Class `Segment`: the segment between `p1` and `p2`. -/
structure Segment where
  p1 : Point
  p2 : Point

namespace Segment

/-- `Segment.norm`: the length `abs (p1 - p2)`. -/
def norm (s : Segment) : ℝ := Point.cabs (s.p1 - s.p2)

/-- `Segment.intersects_with(s, allow_side)`.  The `none` branch of the
line intersection is unreachable when the supporting lines are not
parallel.  The Python default for `allow_side` is `True`; callers here
always pass it explicitly. -/
def intersects_with (self s : Segment) (allow_side : Bool) : Bool :=
  if (Line.from_segment self.p1 self.p2).is_parallel_to
      (Line.from_segment s.p1 s.p2) then
    s.p1.on_segment self.p1 self.p2 allow_side ||
    s.p2.on_segment self.p1 self.p2 allow_side ||
    self.p1.on_segment s.p1 s.p2 allow_side ||
    self.p2.on_segment s.p1 s.p2 allow_side
  else
    match (Line.from_segment self.p1 self.p2).intersection_point
        (Line.from_segment s.p1 s.p2) with
    | none => false
    | some p => p.on_segment self.p1 self.p2 allow_side &&
                p.on_segment s.p1 s.p2 allow_side

/-- `Segment.closest_point(p)`.  The source divides by `self.norm()` with
no guard; Python float division by zero raises `ZeroDivisionError`, which
is modelled as `none`. -/
def closest_point (s : Segment) (p : Point) : Option Point :=
  if s.norm = 0 then none
  else
    let d := (p - s.p1).dot (s.p2 - s.p1) / s.norm
    if d < EPS then some s.p1
    else if -EPS < d - s.norm then some s.p2
    else some (Point.from_polar d ((s.p2 - s.p1).phase) + s.p1)

/-- `Segment.dist(p)`: `abs (p - closest_point p)`, propagating the
division-by-zero failure of `closest_point`. -/
def dist (s : Segment) (p : Point) : Option ℝ :=
  (s.closest_point p).map fun q => Point.cabs (p - q)

end Segment

namespace Polygon

/-- `Polygon.iter2`: `zip(points, points[1:] + points[:1])`. -/
def iter2 (points : List Point) : List (Point × Point) :=
  points.zip (points.drop 1 ++ points.take 1)

/-- `Polygon.iter3`:
`zip(points, points[1:] + points[:1], points[2:] + points[:2])`. -/
def iter3 (points : List Point) : List (Point × Point × Point) :=
  points.zip ((points.drop 1 ++ points.take 1).zip
              (points.drop 2 ++ points.take 2))

/-- `math.fsum`: exact summation of the list (exact in the real model). -/
def fsum (xs : List ℝ) : ℝ := xs.sum

/-- `Polygon.is_convex(allow_straight, allow_collapsed)`: collect the set
of distinct `ccw` classifications over all cyclic vertex triples.  The
Python defaults are `False`; callers here always pass them explicitly. -/
def is_convex (points : List Point)
    (allow_straight allow_collapsed : Bool) : Bool :=
  let s := ((iter3 points).map fun t => Point.ccw t.1 t.2.1 t.2.2).toFinset
  if s.card = 1 ∧
      (s = {Point.CCW_CLOCKWISE} ∨ s = {Point.CCW_COUNTER_CLOCKWISE}) then
    true
  else if allow_straight = true ∧ s.card = 2 ∧
      (s = {Point.CCW_ONLINE_FRONT, Point.CCW_CLOCKWISE} ∨
       s = {Point.CCW_ONLINE_FRONT, Point.CCW_COUNTER_CLOCKWISE}) then
    true
  else if allow_collapsed = true ∧ s.card = 3 then
    if s = {Point.CCW_ONLINE_FRONT, Point.CCW_ONLINE_BACK,
            Point.CCW_ON_SEGMENT} then true else false
  else false

/-- `Polygon.has_point_on_edge(p)`: some cyclic edge classifies `p` as
`ON_SEGMENT`. -/
def has_point_on_edge (points : List Point) (p : Point) : Bool :=
  (iter2 points).any fun ab =>
    decide (Point.ccw ab.1 ab.2 p = Point.CCW_ON_SEGMENT)

/-- Loop body of `Polygon.contains`: walk the edges, short-circuiting with
`allow_on_edge` on an `ON_SEGMENT` edge, otherwise appending the turn
angle; at the end test `abs (fsum angles) > EPS`. -/
def containsAux (p : Point) (allow_on_edge : Bool) :
    List (Point × Point) → List ℝ → Bool
  | [], angles => if |fsum angles| > EPS then true else false
  | (a, b) :: rest, angles =>
    if Point.ccw a b p = Point.CCW_ON_SEGMENT then allow_on_edge
    else containsAux p allow_on_edge rest (angles ++ [p.angle a b])

/-- `Polygon.contains(p, allow_on_edge)`: winding-number containment.  The
Python default for `allow_on_edge` is `True`; callers here always pass it
explicitly. -/
def contains (points : List Point) (p : Point) (allow_on_edge : Bool) :
    Bool :=
  containsAux p allow_on_edge (iter2 points) []

end Polygon

/-- The unit square of the spec's examples. -/
def unitSquare : List Point := [⟨0, 0⟩, ⟨1, 0⟩, ⟨1, 1⟩, ⟨0, 1⟩]

/-- The dented quadrilateral of the spec's convexity example. -/
def dentedQuad : List Point := [⟨0, 0⟩, ⟨1, 0⟩, ⟨0.2, 0.2⟩, ⟨0, 1⟩]

/-- The `ccw` cascade exactly as the spec words it (C1): with `b' = b - a`,
`c' = c - a`, `det = cross (b', c')`, return COUNTER_CLOCKWISE if
`det > EPS`, else CLOCKWISE if `det < -EPS`, else ONLINE_BACK if
`dot (b', c') < -EPS`, else ONLINE_FRONT if `|c'| - |b'| > EPS`, else
ON_SEGMENT. -/
def ccwSpec (a b c : Point) : ℤ :=
  let b' := b - a
  let c' := c - a
  let d := b'.det c'
  if d > EPS then Point.CCW_COUNTER_CLOCKWISE
  else if d < -EPS then Point.CCW_CLOCKWISE
  else if b'.dot c' < -EPS then Point.CCW_ONLINE_BACK
  else if c'.cabs - b'.cabs > EPS then Point.CCW_ONLINE_FRONT
  else Point.CCW_ON_SEGMENT

/-!  Theorems.  -/

@[simp] theorem Point.add_x (p q : Point) : (p + q).x = p.x + q.x := rfl

@[simp] theorem Point.add_y (p q : Point) : (p + q).y = p.y + q.y := rfl

@[simp] theorem Point.sub_x (p q : Point) : (p - q).x = p.x - q.x := rfl

@[simp] theorem Point.sub_y (p q : Point) : (p - q).y = p.y - q.y := rfl

theorem EPS_pos : 0 < EPS := by norm_num [EPS]

theorem Point.cabs_sub_comm (p q : Point) :
    Point.cabs (p - q) = Point.cabs (q - p) := by
  unfold Point.cabs
  rw [show (p - q).x ^ 2 + (p - q).y ^ 2 = (q - p).x ^ 2 + (q - p).y ^ 2 by
    simp only [Point.sub_x, Point.sub_y]; ring]

/-- C1: `Point.ccw(a, b, c)` classifies `c` against the directed segment
`a -> b` with exactly the spec's tie-break cascade (cross-product sign
first, then the dot product, then relative distance), and in particular
`ccw((0,0),(1,0),(0,1)) = COUNTER_CLOCKWISE` and
`ccw((0,0),(1,0),(0,-1)) = CLOCKWISE`. -/
theorem ccw_follows_spec_cascade :
    (∀ a b c : Point, Point.ccw a b c = ccwSpec a b c) ∧
    Point.ccw ⟨0, 0⟩ ⟨1, 0⟩ ⟨0, 1⟩ = Point.CCW_COUNTER_CLOCKWISE ∧
    Point.ccw ⟨0, 0⟩ ⟨1, 0⟩ ⟨0, -1⟩ = Point.CCW_CLOCKWISE := by
  refine ⟨fun a b c => rfl, ?_, ?_⟩
  · show Point.ccw ⟨0, 0⟩ ⟨1, 0⟩ ⟨0, 1⟩ = Point.CCW_COUNTER_CLOCKWISE
    unfold Point.ccw
    norm_num [Point.det, EPS]
  · unfold Point.ccw
    norm_num [Point.det, EPS]

/-- C10: tolerance-based point equality is reflexive and symmetric but not
transitive: `(0,0) == (0.6e-8,0)` and `(0.6e-8,0) == (1.2e-8,0)` but
`(0,0) != (1.2e-8,0)`. -/
theorem point_eqv_refl_symm_not_trans :
    (∀ p : Point, Point.eqv p p) ∧
    (∀ p q : Point, Point.eqv p q → Point.eqv q p) ∧
    Point.eqv ⟨0, 0⟩ ⟨0.6e-8, 0⟩ ∧ Point.eqv ⟨0.6e-8, 0⟩ ⟨1.2e-8, 0⟩ ∧
    ¬ Point.eqv ⟨0, 0⟩ ⟨1.2e-8, 0⟩ := by
  refine ⟨?_, ?_, ?_, ?_, ?_⟩
  · intro p
    unfold Point.eqv Point.cabs
    simp only [Point.sub_x, Point.sub_y, sub_self]
    rw [show (0:ℝ) ^ 2 + 0 ^ 2 = 0 by norm_num, Real.sqrt_zero]
    exact EPS_pos
  · intro p q h
    unfold Point.eqv at h ⊢
    rwa [Point.cabs_sub_comm]
  · unfold Point.eqv Point.cabs
    simp only [Point.sub_x, Point.sub_y]
    rw [show ((0:ℝ) - 0.6e-8) ^ 2 + ((0:ℝ) - 0) ^ 2 = (0.6e-8 : ℝ) ^ 2 by norm_num,
      Real.sqrt_sq (by norm_num)]
    norm_num [EPS]
  · unfold Point.eqv Point.cabs
    simp only [Point.sub_x, Point.sub_y]
    rw [show ((0.6e-8:ℝ) - 1.2e-8) ^ 2 + ((0:ℝ) - 0) ^ 2 = (0.6e-8 : ℝ) ^ 2 by norm_num,
      Real.sqrt_sq (by norm_num)]
    norm_num [EPS]
  · unfold Point.eqv Point.cabs
    simp only [Point.sub_x, Point.sub_y]
    rw [show ((0:ℝ) - 1.2e-8) ^ 2 + ((0:ℝ) - 0) ^ 2 = (1.2e-8 : ℝ) ^ 2 by norm_num,
      Real.sqrt_sq (by norm_num)]
    norm_num [EPS]

/-- C10 witness: symmetry applied at a concrete input. -/
theorem point_eqv_refl_symm_not_trans_w :
    Point.eqv ⟨0.6e-8, 0⟩ ⟨0, 0⟩ :=
  point_eqv_refl_symm_not_trans.2.1 ⟨0, 0⟩ ⟨0.6e-8, 0⟩
    point_eqv_refl_symm_not_trans.2.2.1

/-- C7 counterexample: the code tests `b == 0` exactly, not `|b| < EPS`.
The line `x + 1e-9*y = 0` has `|b| < EPS` yet a finite gradient and
intercept. -/
theorem gradient_not_eps_tolerant :
    |(Line.mk 1 1e-9 0).b| < EPS ∧
    Line.gradient ⟨1, 1e-9, 0⟩ ≠ INF ∧
    Line.intercept ⟨1, 1e-9, 0⟩ ≠ INF := by
  refine ⟨by rw [abs_lt]; constructor <;> norm_num [EPS], ?_, ?_⟩
  · unfold Line.gradient
    rw [if_neg (show ¬ ((Line.mk 1 1e-9 0).b = 0) by norm_num)]
    exact WithTop.coe_ne_top
  · unfold Line.intercept
    rw [if_neg (show ¬ ((Line.mk 1 1e-9 0).b = 0) by norm_num)]
    exact WithTop.coe_ne_top

/-- C7 amended: `Line.gradient` and `Line.intercept` return `+∞` exactly
when `b == 0` (exact comparison, not the EPS tolerance), and otherwise
return `-a/b` and `-c/b`. -/
theorem gradient_intercept_exact_zero_test :
    ∀ l : Line,
      (l.b = 0 → l.gradient = INF ∧ l.intercept = INF) ∧
      (l.b ≠ 0 → l.gradient = ↑(-l.a / l.b) ∧ l.intercept = ↑(-l.c / l.b)) := by
  intro l
  constructor
  · intro h
    unfold Line.gradient Line.intercept
    rw [if_pos h, if_pos h]
    exact ⟨rfl, rfl⟩
  · intro h
    unfold Line.gradient Line.intercept
    rw [if_neg h, if_neg h]
    exact ⟨rfl, rfl⟩

/-- C7 witness: both branches applied at concrete lines. -/
theorem gradient_intercept_exact_zero_test_w :
    Line.gradient ⟨1, 0, 2⟩ = INF ∧
    Line.gradient ⟨1, 2, 3⟩ = ↑(-(1 : ℝ) / 2) :=
  ⟨((gradient_intercept_exact_zero_test ⟨1, 0, 2⟩).1 rfl).1,
   ((gradient_intercept_exact_zero_test ⟨1, 2, 3⟩).2 (by norm_num)).1⟩

/-- C3: `Line.intersection_point` is `none` iff `|a1*b2 - a2*b1| < EPS`;
otherwise it returns exactly the Cramer point, which is the unique
solution of the 2x2 system; and proportional normal vectors always give
`none`. -/
theorem intersection_point_spec :
    ∀ l1 l2 : Line,
      (Line.intersection_point l1 l2 = none ↔
        |l1.a * l2.b - l2.a * l1.b| < EPS) ∧
      (¬ |l1.a * l2.b - l2.a * l1.b| < EPS →
        Line.intersection_point l1 l2 =
          some (Point.from_rect
            ((l1.b * l2.c - l2.b * l1.c) / (l1.a * l2.b - l2.a * l1.b))
            ((l2.a * l1.c - l1.a * l2.c) / (l1.a * l2.b - l2.a * l1.b))) ∧
        (∀ x y : ℝ,
          l1.a * x + l1.b * y + l1.c = 0 → l2.a * x + l2.b * y + l2.c = 0 →
          x = (l1.b * l2.c - l2.b * l1.c) / (l1.a * l2.b - l2.a * l1.b) ∧
          y = (l2.a * l1.c - l1.a * l2.c) / (l1.a * l2.b - l2.a * l1.b))) ∧
      (∀ t : ℝ, l2.a = t * l1.a → l2.b = t * l1.b →
        Line.intersection_point l1 l2 = none) := by
  intro l1 l2
  refine ⟨⟨?_, ?_⟩, ?_, ?_⟩
  · intro h
    by_contra hd
    unfold Line.intersection_point at h
    rw [if_neg hd] at h
    exact Option.some_ne_none _ h
  · intro h
    unfold Line.intersection_point
    rw [if_pos h]
  · intro h
    unfold Line.intersection_point
    rw [if_neg h]
    have hD : l1.a * l2.b - l2.a * l1.b ≠ 0 := by
      intro h0
      exact h (by rw [h0, abs_zero]; exact EPS_pos)
    refine ⟨rfl, ?_⟩
    intro x y h1 h2
    constructor
    · rw [eq_div_iff hD]
      linear_combination l2.b * h1 - l1.b * h2
    · rw [eq_div_iff hD]
      linear_combination l1.a * h2 - l2.a * h1
  · intro t ha hb
    unfold Line.intersection_point
    rw [if_pos]
    rw [ha, hb, show l1.a * (t * l1.b) - t * l1.a * l1.b = 0 by ring, abs_zero]
    exact EPS_pos

/-- C3 witness: perpendicular axes intersect at the Cramer point; the line
and a proportional copy of it give `none`. -/
theorem intersection_point_spec_w :
    Line.intersection_point ⟨1, 0, 0⟩ ⟨0, 1, 0⟩ =
      some (Point.from_rect ((0 * 0 - 1 * 0) / (1 * 1 - 0 * 0))
                            ((0 * 0 - 1 * 0) / (1 * 1 - 0 * 0))) ∧
    Line.intersection_point ⟨1, 0, 0⟩ ⟨2, 0, 5⟩ = none :=
  ⟨((intersection_point_spec ⟨1, 0, 0⟩ ⟨0, 1, 0⟩).2.1
      (by norm_num [EPS])).1,
   (intersection_point_spec ⟨1, 0, 0⟩ ⟨2, 0, 5⟩).2.2 2 (by norm_num)
      (by norm_num)⟩

theorem is_parallel_to_comm (l1 l2 : Line) :
    l1.is_parallel_to l2 = l2.is_parallel_to l1 := by
  unfold Line.is_parallel_to
  rw [show (Point.from_rect l2.a l2.b).det (Point.from_rect l1.a l1.b)
        = -((Point.from_rect l1.a l1.b).det (Point.from_rect l2.a l2.b)) by
      simp only [Point.det, Point.from_rect]; ring,
    abs_neg]

theorem intersection_point_comm (l1 l2 : Line) :
    l1.intersection_point l2 = l2.intersection_point l1 := by
  unfold Line.intersection_point
  by_cases h : |l1.a * l2.b - l2.a * l1.b| < EPS
  · rw [if_pos h, if_pos (by rwa [abs_sub_comm] at h)]
  · rw [if_neg h, if_neg (by rwa [abs_sub_comm] at h)]
    have hD : l1.a * l2.b - l2.a * l1.b ≠ 0 := fun h0 =>
      h (by rw [h0, abs_zero]; exact EPS_pos)
    have hD2 : l2.a * l1.b - l1.a * l2.b ≠ 0 := by
      intro h0
      apply hD
      linarith
    congr 1
    unfold Point.from_rect
    have hx : (l2.b * l1.c - l1.b * l2.c) / (l2.a * l1.b - l1.a * l2.b)
        = (l1.b * l2.c - l2.b * l1.c) / (l1.a * l2.b - l2.a * l1.b) := by
      rw [div_eq_div_iff hD2 hD]; ring
    have hy : (l1.a * l2.c - l2.a * l1.c) / (l2.a * l1.b - l1.a * l2.b)
        = (l2.a * l1.c - l1.a * l2.c) / (l1.a * l2.b - l2.a * l1.b) := by
      rw [div_eq_div_iff hD2 hD]; ring
    rw [hx, hy]

theorem or4_perm (a b c d : Bool) : (a || b || c || d) = (c || d || a || b) := by
  cases a <;> cases b <;> cases c <;> cases d <;> rfl

theorem intersects_with_comm (s1 s2 : Segment) (allow_side : Bool) :
    s1.intersects_with s2 allow_side = s2.intersects_with s1 allow_side := by
  unfold Segment.intersects_with
  rw [is_parallel_to_comm (Line.from_segment s2.p1 s2.p2)
      (Line.from_segment s1.p1 s1.p2),
    intersection_point_comm (Line.from_segment s2.p1 s2.p2)
      (Line.from_segment s1.p1 s1.p2)]
  cases hpar : (Line.from_segment s1.p1 s1.p2).is_parallel_to
      (Line.from_segment s2.p1 s2.p2)
  · simp only [hpar, Bool.false_eq_true, if_false]
    cases hI : (Line.from_segment s1.p1 s1.p2).intersection_point
        (Line.from_segment s2.p1 s2.p2)
    · rfl
    · exact Bool.and_comm _ _
  · simp only [hpar, if_true]
    exact or4_perm _ _ _ _

/-- C8: segment intersection is symmetric: for segments with distinct
endpoints, `s1.intersects_with(s2, allow_side) ==
s2.intersects_with(s1, allow_side)`. -/
theorem intersects_with_symmetric :
    ∀ (s1 s2 : Segment) (allow_side : Bool),
      s1.p1 ≠ s1.p2 → s2.p1 ≠ s2.p2 →
      s1.intersects_with s2 allow_side = s2.intersects_with s1 allow_side :=
  fun s1 s2 allow_side _ _ => intersects_with_comm s1 s2 allow_side

/-- C8 witness: two concrete non-degenerate segments. -/
theorem intersects_with_symmetric_w :
    Segment.intersects_with ⟨⟨0, 0⟩, ⟨1, 0⟩⟩ ⟨⟨0, 0⟩, ⟨0, 1⟩⟩ true =
    Segment.intersects_with ⟨⟨0, 0⟩, ⟨0, 1⟩⟩ ⟨⟨0, 0⟩, ⟨1, 0⟩⟩ true :=
  intersects_with_symmetric ⟨⟨0, 0⟩, ⟨1, 0⟩⟩ ⟨⟨0, 0⟩, ⟨0, 1⟩⟩ true
    (fun h => zero_ne_one (congrArg Point.x h))
    (fun h => zero_ne_one (congrArg Point.y h))

theorem TAU_pos : 0 < TAU := by
  unfold TAU
  have := Real.pi_pos
  linarith

theorem fmod_bounds (a b : ℝ) (hb : 0 < b) : 0 ≤ fmod a b ∧ fmod a b < b := by
  unfold fmod
  rw [show a - b * ↑⌊a / b⌋ = a - ↑⌊a / b⌋ * b by ring]
  exact ⟨Int.sub_floor_div_mul_nonneg a hb, Int.sub_floor_div_mul_lt a hb⟩

theorem fmod_eq_of_decomp (a b r : ℝ) (k : ℤ) (h : a = b * k + r)
    (h0 : 0 ≤ r) (h1 : r < b) : fmod a b = r := by
  have hb : 0 < b := lt_of_le_of_lt h0 h1
  have hfloor : ⌊a / b⌋ = k := by
    rw [Int.floor_eq_iff]
    constructor
    · rw [h, le_div_iff₀ hb]
      nlinarith
    · rw [h, div_lt_iff₀ hb]
      nlinarith
  unfold fmod
  rw [hfloor, h]
  ring

theorem atan2_of_pos (y x : ℝ) (hx : 0 < x) :
    atan2 y x = Real.arctan (y / x) := by
  unfold atan2
  rw [if_pos hx]

theorem atan2_of_neg_nonneg (y x : ℝ) (hx : x < 0) (hy : 0 ≤ y) :
    atan2 y x = Real.arctan (y / x) + PI := by
  unfold atan2
  rw [if_neg (by linarith : ¬ 0 < x), if_pos ⟨hx, hy⟩]

theorem atan2_of_neg_neg (y x : ℝ) (hx : x < 0) (hy : y < 0) :
    atan2 y x = Real.arctan (y / x) - PI := by
  unfold atan2
  rw [if_neg (by linarith : ¬ 0 < x),
    if_neg (fun hc => absurd hc.2 (not_le.mpr hy)), if_pos ⟨hx, hy⟩]

theorem point_eqv_iff (p q : Point) :
    Point.eqv p q ↔ Real.sqrt ((p.x - q.x) ^ 2 + (p.y - q.y) ^ 2) < EPS := by
  unfold Point.eqv Point.cabs
  simp only [Point.sub_x, Point.sub_y]

/-- C6 counterexample: with self = (0,0), p = (1,0), q = (-1,0) (both
distinct from self under the tolerance-based equality), the angle is
exactly -π, so the value is not in the half-open-above interval
(-π, π]. -/
theorem angle_attains_neg_pi :
    ¬ Point.eqv ⟨0, 0⟩ ⟨1, 0⟩ ∧ ¬ Point.eqv ⟨0, 0⟩ ⟨-1, 0⟩ ∧
    Point.angle ⟨0, 0⟩ ⟨1, 0⟩ ⟨-1, 0⟩ = -PI ∧
    ¬ (-PI < Point.angle ⟨0, 0⟩ ⟨1, 0⟩ ⟨-1, 0⟩) := by
  have hq : (Point.mk (-1) 0 - Point.mk 0 0).phase = PI := by
    show atan2 (0 - 0) (-1 - 0) = PI
    rw [show (0 : ℝ) - 0 = 0 by ring, show (-1 : ℝ) - 0 = -1 by ring,
      atan2_of_neg_nonneg 0 (-1) (by norm_num) le_rfl,
      show (0 : ℝ) / -1 = 0 by norm_num, Real.arctan_zero]
    ring
  have hp : (Point.mk 1 0 - Point.mk 0 0).phase = 0 := by
    show atan2 (0 - 0) (1 - 0) = 0
    rw [show (0 : ℝ) - 0 = 0 by ring, show (1 : ℝ) - 0 = 1 by ring,
      atan2_of_pos 0 1 one_pos, zero_div, Real.arctan_zero]
  have hangle : Point.angle ⟨0, 0⟩ ⟨1, 0⟩ ⟨-1, 0⟩ = -PI := by
    unfold Point.angle
    rw [hq, hp]
    rw [fmod_eq_of_decomp (PI - 0 + PI) TAU 0 1
      (by unfold PI TAU; push_cast; ring) le_rfl TAU_pos]
    ring
  refine ⟨?_, ?_, hangle, ?_⟩
  · rw [point_eqv_iff]
    rw [show ((Point.mk 0 0).x - (Point.mk 1 0).x) ^ 2 +
        ((Point.mk 0 0).y - (Point.mk 1 0).y) ^ 2 = 1 by norm_num,
      Real.sqrt_one]
    norm_num [EPS]
  · rw [point_eqv_iff]
    rw [show ((Point.mk 0 0).x - (Point.mk (-1) 0).x) ^ 2 +
        ((Point.mk 0 0).y - (Point.mk (-1) 0).y) ^ 2 = 1 by norm_num,
      Real.sqrt_one]
    norm_num [EPS]
  · rw [hangle]
    exact lt_irrefl _

/-- C6 amended: for self, p, q with p != self and q != self (under the
code's tolerance-based equality), `Point.angle(p, q)` equals
`((phase(q - self) - phase(p - self) + π) mod 2π) - π` and its value lies
in the half-open-below interval [-π, π): it may equal -π and is never
equal to π. -/
theorem angle_formula_and_range :
    ∀ o p q : Point, ¬ Point.eqv o p → ¬ Point.eqv o q →
      Point.angle o p q =
        fmod ((q - o).phase - (p - o).phase + PI) TAU - PI ∧
      -PI ≤ Point.angle o p q ∧ Point.angle o p q < PI := by
  intro o p q _ _
  obtain ⟨h0, h1⟩ :=
    fmod_bounds ((q - o).phase - (p - o).phase + PI) TAU TAU_pos
  refine ⟨rfl, ?_, ?_⟩
  · unfold Point.angle
    linarith
  · unfold Point.angle
    linarith [show TAU = PI * 2 from rfl]

/-- C6 witness: the amended theorem applied at self = (0,0), p = (1,0),
q = (0,1). -/
theorem angle_formula_and_range_w :
    -PI ≤ Point.angle ⟨0, 0⟩ ⟨1, 0⟩ ⟨0, 1⟩ ∧
    Point.angle ⟨0, 0⟩ ⟨1, 0⟩ ⟨0, 1⟩ < PI :=
  (angle_formula_and_range ⟨0, 0⟩ ⟨1, 0⟩ ⟨0, 1⟩
    (by
      rw [point_eqv_iff]
      rw [show ((Point.mk 0 0).x - (Point.mk 1 0).x) ^ 2 +
          ((Point.mk 0 0).y - (Point.mk 1 0).y) ^ 2 = 1 by norm_num,
        Real.sqrt_one]
      norm_num [EPS])
    (by
      rw [point_eqv_iff]
      rw [show ((Point.mk 0 0).x - (Point.mk 0 1).x) ^ 2 +
          ((Point.mk 0 0).y - (Point.mk 0 1).y) ^ 2 = 1 by norm_num,
        Real.sqrt_one]
      norm_num [EPS])).2

/-- C4 counterexample: on the degenerate segment whose endpoints coincide
exactly, `norm() == 0` and the division in `closest_point` is reached with
a zero divisor (a `ZeroDivisionError` in Python, `none` in this model);
`dist` propagates the same failure. -/
theorem closest_point_zero_division :
    Segment.closest_point ⟨⟨0, 0⟩, ⟨0, 0⟩⟩ ⟨1, 1⟩ = none ∧
    Segment.dist ⟨⟨0, 0⟩, ⟨0, 0⟩⟩ ⟨1, 1⟩ = none := by
  have hn : (Segment.mk ⟨0, 0⟩ ⟨0, 0⟩).norm = 0 := by
    show Real.sqrt (((0 : ℝ) - 0) ^ 2 + ((0 : ℝ) - 0) ^ 2) = 0
    rw [show ((0 : ℝ) - 0) ^ 2 + ((0 : ℝ) - 0) ^ 2 = 0 by norm_num,
      Real.sqrt_zero]
  constructor
  · unfold Segment.closest_point
    rw [if_pos hn]
  · unfold Segment.dist Segment.closest_point
    rw [if_pos hn]
    rfl

/-- C4 amended: `Segment.closest_point(p)` and `Segment.dist(p)` return a
well-defined result for every segment of nonzero length, but the division
by `norm()` is NOT guarded: a degenerate segment with exactly coinciding
endpoints reaches the division by zero. -/
theorem closest_point_dist_total :
    ∀ (s : Segment) (p : Point), s.norm ≠ 0 →
      (s.closest_point p).isSome = true ∧ (s.dist p).isSome = true := by
  intro s p h
  have h1 : (s.closest_point p).isSome = true := by
    unfold Segment.closest_point
    rw [if_neg h]
    dsimp only
    split_ifs <;> rfl
  refine ⟨h1, ?_⟩
  unfold Segment.dist
  cases hO : s.closest_point p with
  | none =>
    rw [hO] at h1
    exact absurd h1 (by simp)
  | some q => rfl

theorem ccw_eq_counter (a b c : Point) (h : (b - a).det (c - a) > EPS) :
    Point.ccw a b c = Point.CCW_COUNTER_CLOCKWISE := by
  simp only [Point.ccw]
  rw [if_pos h]

theorem ccw_eq_clock (a b c : Point) (h1 : ¬ (b - a).det (c - a) > EPS)
    (h2 : (b - a).det (c - a) < -EPS) :
    Point.ccw a b c = Point.CCW_CLOCKWISE := by
  simp only [Point.ccw]
  rw [if_neg h1, if_pos h2]

theorem ccw_eq_online_back (a b c : Point)
    (h1 : ¬ (b - a).det (c - a) > EPS) (h2 : ¬ (b - a).det (c - a) < -EPS)
    (h3 : (b - a).dot (c - a) < -EPS) :
    Point.ccw a b c = Point.CCW_ONLINE_BACK := by
  simp only [Point.ccw]
  rw [if_neg h1, if_neg h2, if_pos h3]

theorem ccw_eq_on_seg (a b c : Point)
    (h1 : ¬ (b - a).det (c - a) > EPS) (h2 : ¬ (b - a).det (c - a) < -EPS)
    (h3 : ¬ (b - a).dot (c - a) < -EPS)
    (h4 : ¬ (c - a).norm - (b - a).norm > EPS) :
    Point.ccw a b c = Point.CCW_ON_SEGMENT := by
  simp only [Point.ccw]
  rw [if_neg h1, if_neg h2, if_neg h3, if_neg h4]

/-- C5: `Polygon.is_convex` returns true iff the set of distinct ccw
classifications over all cyclic vertex triples is exactly {CLOCKWISE} or
{COUNTER_CLOCKWISE}, or `allow_straight` and it is {ONLINE_FRONT,
CLOCKWISE} or {ONLINE_FRONT, COUNTER_CLOCKWISE}, or `allow_collapsed` and
it is {ONLINE_FRONT, ONLINE_BACK, ON_SEGMENT}; in particular the unit
square is convex and the dented quadrilateral is not. -/
theorem is_convex_spec :
    (∀ (points : List Point) (allow_straight allow_collapsed : Bool),
      Polygon.is_convex points allow_straight allow_collapsed = true ↔
        (((Polygon.iter3 points).map fun t =>
            Point.ccw t.1 t.2.1 t.2.2).toFinset = {Point.CCW_CLOCKWISE} ∨
         ((Polygon.iter3 points).map fun t =>
            Point.ccw t.1 t.2.1 t.2.2).toFinset =
              {Point.CCW_COUNTER_CLOCKWISE} ∨
         (allow_straight = true ∧
           (((Polygon.iter3 points).map fun t =>
              Point.ccw t.1 t.2.1 t.2.2).toFinset =
                {Point.CCW_ONLINE_FRONT, Point.CCW_CLOCKWISE} ∨
            ((Polygon.iter3 points).map fun t =>
              Point.ccw t.1 t.2.1 t.2.2).toFinset =
                {Point.CCW_ONLINE_FRONT, Point.CCW_COUNTER_CLOCKWISE})) ∨
         (allow_collapsed = true ∧
           ((Polygon.iter3 points).map fun t =>
              Point.ccw t.1 t.2.1 t.2.2).toFinset =
                {Point.CCW_ONLINE_FRONT, Point.CCW_ONLINE_BACK,
                 Point.CCW_ON_SEGMENT}))) ∧
    Polygon.is_convex unitSquare false false = true ∧
    Polygon.is_convex dentedQuad false false = false := by
  refine ⟨?_, ?_, ?_⟩
  · intro points allow_straight allow_collapsed
    unfold Polygon.is_convex
    dsimp only
    set s := ((Polygon.iter3 points).map fun t =>
      Point.ccw t.1 t.2.1 t.2.2).toFinset with hs
    split_ifs with hA hB hC hD
    · exact ⟨fun _ => hA.2.elim Or.inl (fun h => Or.inr (Or.inl h)),
        fun _ => rfl⟩
    · exact ⟨fun _ => Or.inr (Or.inr (Or.inl ⟨hB.1, hB.2.2⟩)), fun _ => rfl⟩
    · exact ⟨fun _ => Or.inr (Or.inr (Or.inr ⟨hC.1, hD⟩)), fun _ => rfl⟩
    · constructor
      · intro h
        exact absurd h (by simp)
      · intro h
        rcases h with h | h | ⟨hstr, h | h⟩ | ⟨hcol, h⟩
        · exact absurd ⟨by rw [h]; decide, Or.inl h⟩ hA
        · exact absurd ⟨by rw [h]; decide, Or.inr h⟩ hA
        · exact absurd ⟨hstr, by rw [h]; decide, Or.inl h⟩ hB
        · exact absurd ⟨hstr, by rw [h]; decide, Or.inr h⟩ hB
        · exact absurd h hD
    · constructor
      · intro h
        exact absurd h (by simp)
      · intro h
        rcases h with h | h | ⟨hstr, h | h⟩ | ⟨hcol, h⟩
        · exact absurd ⟨by rw [h]; decide, Or.inl h⟩ hA
        · exact absurd ⟨by rw [h]; decide, Or.inr h⟩ hA
        · exact absurd ⟨hstr, by rw [h]; decide, Or.inl h⟩ hB
        · exact absurd ⟨hstr, by rw [h]; decide, Or.inr h⟩ hB
        · exact absurd ⟨hcol, by rw [h]; decide⟩ hC
  · have hl : Polygon.iter3 unitSquare =
        [(⟨0, 0⟩, ⟨1, 0⟩, ⟨1, 1⟩), (⟨1, 0⟩, ⟨1, 1⟩, ⟨0, 1⟩),
         (⟨1, 1⟩, ⟨0, 1⟩, ⟨0, 0⟩), (⟨0, 1⟩, ⟨0, 0⟩, ⟨1, 0⟩)] := rfl
    unfold Polygon.is_convex
    rw [hl]
    simp only [List.map,
      ccw_eq_counter ⟨0, 0⟩ ⟨1, 0⟩ ⟨1, 1⟩ (by norm_num [Point.det, EPS]),
      ccw_eq_counter ⟨1, 0⟩ ⟨1, 1⟩ ⟨0, 1⟩ (by norm_num [Point.det, EPS]),
      ccw_eq_counter ⟨1, 1⟩ ⟨0, 1⟩ ⟨0, 0⟩ (by norm_num [Point.det, EPS]),
      ccw_eq_counter ⟨0, 1⟩ ⟨0, 0⟩ ⟨1, 0⟩ (by norm_num [Point.det, EPS])]
    decide
  · have hl : Polygon.iter3 dentedQuad =
        [(⟨0, 0⟩, ⟨1, 0⟩, ⟨0.2, 0.2⟩), (⟨1, 0⟩, ⟨0.2, 0.2⟩, ⟨0, 1⟩),
         (⟨0.2, 0.2⟩, ⟨0, 1⟩, ⟨0, 0⟩), (⟨0, 1⟩, ⟨0, 0⟩, ⟨1, 0⟩)] := rfl
    unfold Polygon.is_convex
    rw [hl]
    simp only [List.map,
      ccw_eq_counter ⟨0, 0⟩ ⟨1, 0⟩ ⟨0.2, 0.2⟩ (by norm_num [Point.det, EPS]),
      ccw_eq_clock ⟨1, 0⟩ ⟨0.2, 0.2⟩ ⟨0, 1⟩
        (by norm_num [Point.det, EPS]) (by norm_num [Point.det, EPS]),
      ccw_eq_counter ⟨0.2, 0.2⟩ ⟨0, 1⟩ ⟨0, 0⟩ (by norm_num [Point.det, EPS]),
      ccw_eq_counter ⟨0, 1⟩ ⟨0, 0⟩ ⟨1, 0⟩ (by norm_num [Point.det, EPS])]
    decide

theorem cabs_val (p : Point) (r : ℝ) (hr : 0 ≤ r)
    (h : p.x ^ 2 + p.y ^ 2 = r ^ 2) : Point.cabs p = r := by
  unfold Point.cabs
  rw [h, Real.sqrt_sq hr]

theorem containsAux_of_onseg (p : Point) (allow : Bool) :
    ∀ (edges : List (Point × Point)) (acc : List ℝ),
      (∃ e ∈ edges, Point.ccw e.1 e.2 p = Point.CCW_ON_SEGMENT) →
      Polygon.containsAux p allow edges acc = allow := by
  intro edges
  induction edges with
  | nil =>
    intro acc h
    rcases h with ⟨e, he, _⟩
    exact absurd he (List.not_mem_nil e)
  | cons ab rest ih =>
    intro acc h
    obtain ⟨a, b⟩ := ab
    simp only [Polygon.containsAux]
    by_cases hc : Point.ccw a b p = Point.CCW_ON_SEGMENT
    · rw [if_pos hc]
    · rw [if_neg hc]
      apply ih
      rcases h with ⟨e, he, hone⟩
      rcases List.mem_cons.mp he with rfl | hmem
      · exact absurd hone hc
      · exact ⟨e, hmem, hone⟩

theorem containsAux_of_no_onseg (p : Point) (allow : Bool) :
    ∀ (edges : List (Point × Point)) (acc : List ℝ),
      (∀ e ∈ edges, Point.ccw e.1 e.2 p ≠ Point.CCW_ON_SEGMENT) →
      Polygon.containsAux p allow edges acc =
        if |Polygon.fsum (acc ++ edges.map fun e => p.angle e.1 e.2)| > EPS
          then true else false := by
  intro edges
  induction edges with
  | nil =>
    intro acc h
    simp only [Polygon.containsAux, List.map_nil, List.append_nil]
  | cons ab rest ih =>
    intro acc h
    obtain ⟨a, b⟩ := ab
    have hc : Point.ccw a b p ≠ Point.CCW_ON_SEGMENT :=
      h (a, b) (List.mem_cons_self _ _)
    simp only [Polygon.containsAux]
    rw [if_neg hc,
      ih (acc ++ [p.angle a b]) (fun e he => h e (List.mem_cons_of_mem _ he)),
      List.append_assoc, List.singleton_append, List.map_cons]

theorem contains_of_onseg (points : List Point) (p : Point) (allow : Bool)
    (h : ∃ e ∈ Polygon.iter2 points,
      Point.ccw e.1 e.2 p = Point.CCW_ON_SEGMENT) :
    Polygon.contains points p allow = allow :=
  containsAux_of_onseg p allow _ [] h

theorem contains_of_no_onseg (points : List Point) (p : Point) (allow : Bool)
    (h : ∀ e ∈ Polygon.iter2 points,
      Point.ccw e.1 e.2 p ≠ Point.CCW_ON_SEGMENT) :
    Polygon.contains points p allow =
      if |Polygon.fsum ((Polygon.iter2 points).map fun e =>
          p.angle e.1 e.2)| > EPS then true else false := by
  unfold Polygon.contains
  rw [containsAux_of_no_onseg p allow _ [] h, List.nil_append]

/-- C9: `Polygon.has_point_on_edge(p)` is true iff the two `contains`
variants disagree; equivalently, they agree exactly when no cyclic edge
classifies `p` as ON_SEGMENT. -/
theorem has_point_on_edge_iff_contains_disagree :
    ∀ (points : List Point) (p : Point),
      (Polygon.has_point_on_edge points p = true ↔
        Polygon.contains points p true ≠ Polygon.contains points p false) ∧
      (Polygon.contains points p true = Polygon.contains points p false ↔
        ∀ e ∈ Polygon.iter2 points,
          Point.ccw e.1 e.2 p ≠ Point.CCW_ON_SEGMENT) := by
  intro points p
  have hany : Polygon.has_point_on_edge points p = true ↔
      ∃ e ∈ Polygon.iter2 points,
        Point.ccw e.1 e.2 p = Point.CCW_ON_SEGMENT := by
    simp only [Polygon.has_point_on_edge, List.any_eq_true, decide_eq_true_eq]
  by_cases h : ∃ e ∈ Polygon.iter2 points,
      Point.ccw e.1 e.2 p = Point.CCW_ON_SEGMENT
  · have ht := contains_of_onseg points p true h
    have hf := contains_of_onseg points p false h
    constructor
    · rw [hany]
      exact iff_of_true h (by rw [ht, hf]; decide)
    · apply iff_of_false
      · rw [ht, hf]; decide
      · intro hall
        rcases h with ⟨e, he, hc⟩
        exact hall e he hc
  · have hall : ∀ e ∈ Polygon.iter2 points,
        Point.ccw e.1 e.2 p ≠ Point.CCW_ON_SEGMENT :=
      fun e he hc => h ⟨e, he, hc⟩
    have ht := contains_of_no_onseg points p true hall
    have hf := contains_of_no_onseg points p false hall
    constructor
    · apply iff_of_false
      · rw [hany]; exact h
      · intro hne
        exact hne (by rw [ht, hf])
    · exact iff_of_true (by rw [ht, hf]) hall

/-- C9 witness: the equivalence applied to the empty polygon. -/
theorem has_point_on_edge_iff_contains_disagree_w :
    Polygon.contains [] ⟨0, 0⟩ true = Polygon.contains [] ⟨0, 0⟩ false :=
  (has_point_on_edge_iff_contains_disagree [] ⟨0, 0⟩).2.mpr
    (fun e he => absurd he (List.not_mem_nil e))

/-- C2: `Polygon.contains(p, allow_on_edge)` returns `allow_on_edge` as
soon as some cyclic edge classifies `p` as ON_SEGMENT, and otherwise
returns true iff the absolute value of the sum of the signed turn angles
over all cyclic edges exceeds EPS; for the unit square,
`contains((0.5,0.5))` is true, `contains((2,2))` is false, and
`contains((0,0.5))` equals the `allow_on_edge` flag. -/
theorem contains_winding_spec :
    (∀ (points : List Point) (p : Point) (allow_on_edge : Bool),
      ((∃ e ∈ Polygon.iter2 points,
          Point.ccw e.1 e.2 p = Point.CCW_ON_SEGMENT) →
        Polygon.contains points p allow_on_edge = allow_on_edge) ∧
      ((∀ e ∈ Polygon.iter2 points,
          Point.ccw e.1 e.2 p ≠ Point.CCW_ON_SEGMENT) →
        (Polygon.contains points p allow_on_edge = true ↔
          |Polygon.fsum ((Polygon.iter2 points).map fun e =>
            p.angle e.1 e.2)| > EPS))) ∧
    Polygon.contains unitSquare ⟨0.5, 0.5⟩ true = true ∧
    Polygon.contains unitSquare ⟨2, 2⟩ true = false ∧
    Polygon.contains unitSquare ⟨0, 0.5⟩ true = true ∧
    Polygon.contains unitSquare ⟨0, 0.5⟩ false = false := by
  have hit : Polygon.iter2 unitSquare =
      [(⟨0, 0⟩, ⟨1, 0⟩), (⟨1, 0⟩, ⟨1, 1⟩),
       (⟨1, 1⟩, ⟨0, 1⟩), (⟨0, 1⟩, ⟨0, 0⟩)] := rfl
  have c4on : Point.ccw ⟨0, 1⟩ ⟨0, 0⟩ ⟨0, 0.5⟩ = Point.CCW_ON_SEGMENT := by
    apply ccw_eq_on_seg
    · norm_num [Point.det, EPS]
    · norm_num [Point.det, EPS]
    · norm_num [Point.dot, EPS]
    · unfold Point.norm
      rw [cabs_val ((⟨0, 0.5⟩ : Point) - ⟨0, 1⟩) 0.5 (by norm_num)
          (by norm_num),
        cabs_val ((⟨0, 0⟩ : Point) - ⟨0, 1⟩) 1 (by norm_num) (by norm_num)]
      norm_num [EPS]
  have hmem4 : ((⟨0, 1⟩, ⟨0, 0⟩) : Point × Point) ∈
      Polygon.iter2 unitSquare := by
    rw [hit]
    exact List.mem_cons_of_mem _ (List.mem_cons_of_mem _
      (List.mem_cons_of_mem _ (List.mem_cons_self _ _)))
  refine ⟨?_, ?_, ?_, ?_, ?_⟩
  · intro points p allow_on_edge
    refine ⟨fun h => contains_of_onseg points p allow_on_edge h, fun h => ?_⟩
    rw [contains_of_no_onseg points p allow_on_edge h]
    split_ifs with hgt
    · exact iff_of_true rfl hgt
    · exact iff_of_false (by simp) hgt
  · -- interior point (0.5, 0.5): all four edges turn by π/2, total 2π
    have c1 : Point.ccw ⟨0, 0⟩ ⟨1, 0⟩ ⟨0.5, 0.5⟩ =
        Point.CCW_COUNTER_CLOCKWISE :=
      ccw_eq_counter _ _ _ (by norm_num [Point.det, EPS])
    have c2 : Point.ccw ⟨1, 0⟩ ⟨1, 1⟩ ⟨0.5, 0.5⟩ =
        Point.CCW_COUNTER_CLOCKWISE :=
      ccw_eq_counter _ _ _ (by norm_num [Point.det, EPS])
    have c3 : Point.ccw ⟨1, 1⟩ ⟨0, 1⟩ ⟨0.5, 0.5⟩ =
        Point.CCW_COUNTER_CLOCKWISE :=
      ccw_eq_counter _ _ _ (by norm_num [Point.det, EPS])
    have c4 : Point.ccw ⟨0, 1⟩ ⟨0, 0⟩ ⟨0.5, 0.5⟩ =
        Point.CCW_COUNTER_CLOCKWISE :=
      ccw_eq_counter _ _ _ (by norm_num [Point.det, EPS])
    have hno : ∀ e ∈ Polygon.iter2 unitSquare,
        Point.ccw e.1 e.2 (⟨0.5, 0.5⟩ : Point) ≠ Point.CCW_ON_SEGMENT := by
      intro e he
      rw [hit] at he
      simp only [List.mem_cons, List.not_mem_nil, or_false] at he
      rcases he with rfl | rfl | rfl | rfl
      · dsimp only
        rw [c1]; decide
      · dsimp only
        rw [c2]; decide
      · dsimp only
        rw [c3]; decide
      · dsimp only
        rw [c4]; decide
    have phA : ((⟨0, 0⟩ : Point) - ⟨0.5, 0.5⟩).phase = π / 4 - π := by
      show atan2 ((0 : ℝ) - 0.5) ((0 : ℝ) - 0.5) = π / 4 - π
      rw [atan2_of_neg_neg _ _ (by norm_num) (by norm_num),
        show ((0 : ℝ) - 0.5) / ((0 : ℝ) - 0.5) = 1 by norm_num,
        Real.arctan_one]
      unfold PI
      rfl
    have phB : ((⟨1, 0⟩ : Point) - ⟨0.5, 0.5⟩).phase = -(π / 4) := by
      show atan2 ((0 : ℝ) - 0.5) ((1 : ℝ) - 0.5) = -(π / 4)
      rw [atan2_of_pos _ _ (by norm_num),
        show ((0 : ℝ) - 0.5) / ((1 : ℝ) - 0.5) = -1 by norm_num,
        show (-1 : ℝ) = -(1 : ℝ) from rfl, Real.arctan_neg, Real.arctan_one]
    have phC : ((⟨1, 1⟩ : Point) - ⟨0.5, 0.5⟩).phase = π / 4 := by
      show atan2 ((1 : ℝ) - 0.5) ((1 : ℝ) - 0.5) = π / 4
      rw [atan2_of_pos _ _ (by norm_num),
        show ((1 : ℝ) - 0.5) / ((1 : ℝ) - 0.5) = 1 by norm_num,
        Real.arctan_one]
    have phD : ((⟨0, 1⟩ : Point) - ⟨0.5, 0.5⟩).phase = -(π / 4) + π := by
      show atan2 ((1 : ℝ) - 0.5) ((0 : ℝ) - 0.5) = -(π / 4) + π
      rw [atan2_of_neg_nonneg _ _ (by norm_num) (by norm_num),
        show ((1 : ℝ) - 0.5) / ((0 : ℝ) - 0.5) = -1 by norm_num,
        show (-1 : ℝ) = -(1 : ℝ) from rfl, Real.arctan_neg, Real.arctan_one]
      unfold PI
      rfl
    have a1 : Point.angle ⟨0.5, 0.5⟩ ⟨0, 0⟩ ⟨1, 0⟩ = π / 2 := by
      unfold Point.angle
      rw [phB, phA,
        fmod_eq_of_decomp _ TAU (3 * π / 2) 0
          (by unfold PI TAU; push_cast; ring) (by positivity)
          (by unfold TAU; linarith [Real.pi_pos])]
      unfold PI; ring
    have a2 : Point.angle ⟨0.5, 0.5⟩ ⟨1, 0⟩ ⟨1, 1⟩ = π / 2 := by
      unfold Point.angle
      rw [phC, phB,
        fmod_eq_of_decomp _ TAU (3 * π / 2) 0
          (by unfold PI TAU; push_cast; ring) (by positivity)
          (by unfold TAU; linarith [Real.pi_pos])]
      unfold PI; ring
    have a3 : Point.angle ⟨0.5, 0.5⟩ ⟨1, 1⟩ ⟨0, 1⟩ = π / 2 := by
      unfold Point.angle
      rw [phD, phC,
        fmod_eq_of_decomp _ TAU (3 * π / 2) 0
          (by unfold PI TAU; push_cast; ring) (by positivity)
          (by unfold TAU; linarith [Real.pi_pos])]
      unfold PI; ring
    have a4 : Point.angle ⟨0.5, 0.5⟩ ⟨0, 1⟩ ⟨0, 0⟩ = π / 2 := by
      unfold Point.angle
      rw [phA, phD,
        fmod_eq_of_decomp _ TAU (3 * π / 2) (-1)
          (by unfold PI TAU; push_cast; ring) (by positivity)
          (by unfold TAU; linarith [Real.pi_pos])]
      unfold PI; ring
    rw [contains_of_no_onseg _ _ _ hno, hit]
    simp only [List.map]
    simp only [a1, a2, a3, a4]
    have hsum : Polygon.fsum [π / 2, π / 2, π / 2, π / 2] = 2 * π := by
      unfold Polygon.fsum
      simp only [List.sum_cons, List.sum_nil]
      ring
    simp only [hsum]
    rw [if_pos (show |(2 * π : ℝ)| > EPS by
      rw [abs_of_pos (by positivity)]
      unfold EPS
      nlinarith [Real.pi_gt_three])]
  · -- exterior point (2, 2): the four turn angles cancel to 0
    have t2a : 0 < Real.arctan 2 := by
      have h := Real.arctan_strictMono (show (0 : ℝ) < 2 by norm_num)
      rwa [Real.arctan_zero] at h
    have t2b : Real.arctan 2 < π / 2 := Real.arctan_lt_pi_div_two 2
    have tha : 0 < Real.arctan (1 / 2) := by
      have h := Real.arctan_strictMono (show (0 : ℝ) < 1 / 2 by norm_num)
      rwa [Real.arctan_zero] at h
    have thb : Real.arctan (1 / 2) < π / 2 := Real.arctan_lt_pi_div_two _
    have c1 : Point.ccw ⟨0, 0⟩ ⟨1, 0⟩ ⟨2, 2⟩ =
        Point.CCW_COUNTER_CLOCKWISE :=
      ccw_eq_counter _ _ _ (by norm_num [Point.det, EPS])
    have c2 : Point.ccw ⟨1, 0⟩ ⟨1, 1⟩ ⟨2, 2⟩ = Point.CCW_CLOCKWISE :=
      ccw_eq_clock _ _ _ (by norm_num [Point.det, EPS])
        (by norm_num [Point.det, EPS])
    have c3 : Point.ccw ⟨1, 1⟩ ⟨0, 1⟩ ⟨2, 2⟩ = Point.CCW_CLOCKWISE :=
      ccw_eq_clock _ _ _ (by norm_num [Point.det, EPS])
        (by norm_num [Point.det, EPS])
    have c4 : Point.ccw ⟨0, 1⟩ ⟨0, 0⟩ ⟨2, 2⟩ =
        Point.CCW_COUNTER_CLOCKWISE :=
      ccw_eq_counter _ _ _ (by norm_num [Point.det, EPS])
    have hno : ∀ e ∈ Polygon.iter2 unitSquare,
        Point.ccw e.1 e.2 (⟨2, 2⟩ : Point) ≠ Point.CCW_ON_SEGMENT := by
      intro e he
      rw [hit] at he
      simp only [List.mem_cons, List.not_mem_nil, or_false] at he
      rcases he with rfl | rfl | rfl | rfl
      · dsimp only
        rw [c1]; decide
      · dsimp only
        rw [c2]; decide
      · dsimp only
        rw [c3]; decide
      · dsimp only
        rw [c4]; decide
    have phA : ((⟨0, 0⟩ : Point) - ⟨2, 2⟩).phase = π / 4 - π := by
      show atan2 ((0 : ℝ) - 2) ((0 : ℝ) - 2) = π / 4 - π
      rw [atan2_of_neg_neg _ _ (by norm_num) (by norm_num),
        show ((0 : ℝ) - 2) / ((0 : ℝ) - 2) = 1 by norm_num, Real.arctan_one]
      unfold PI
      rfl
    have phB : ((⟨1, 0⟩ : Point) - ⟨2, 2⟩).phase = Real.arctan 2 - π := by
      show atan2 ((0 : ℝ) - 2) ((1 : ℝ) - 2) = Real.arctan 2 - π
      rw [atan2_of_neg_neg _ _ (by norm_num) (by norm_num),
        show ((0 : ℝ) - 2) / ((1 : ℝ) - 2) = 2 by norm_num]
      unfold PI
      rfl
    have phC : ((⟨1, 1⟩ : Point) - ⟨2, 2⟩).phase = π / 4 - π := by
      show atan2 ((1 : ℝ) - 2) ((1 : ℝ) - 2) = π / 4 - π
      rw [atan2_of_neg_neg _ _ (by norm_num) (by norm_num),
        show ((1 : ℝ) - 2) / ((1 : ℝ) - 2) = 1 by norm_num, Real.arctan_one]
      unfold PI
      rfl
    have phD : ((⟨0, 1⟩ : Point) - ⟨2, 2⟩).phase =
        Real.arctan (1 / 2) - π := by
      show atan2 ((1 : ℝ) - 2) ((0 : ℝ) - 2) = Real.arctan (1 / 2) - π
      rw [atan2_of_neg_neg _ _ (by norm_num) (by norm_num),
        show ((1 : ℝ) - 2) / ((0 : ℝ) - 2) = 1 / 2 by norm_num]
      unfold PI
      rfl
    have a1 : Point.angle ⟨2, 2⟩ ⟨0, 0⟩ ⟨1, 0⟩ = Real.arctan 2 - π / 4 := by
      unfold Point.angle
      rw [phB, phA,
        fmod_eq_of_decomp _ TAU (Real.arctan 2 + 3 * π / 4) 0
          (by unfold PI TAU; push_cast; ring)
          (by linarith [Real.pi_pos])
          (by unfold TAU; linarith [Real.pi_pos])]
      unfold PI; ring
    have a2 : Point.angle ⟨2, 2⟩ ⟨1, 0⟩ ⟨1, 1⟩ = π / 4 - Real.arctan 2 := by
      unfold Point.angle
      rw [phC, phB,
        fmod_eq_of_decomp _ TAU (5 * π / 4 - Real.arctan 2) 0
          (by unfold PI TAU; push_cast; ring)
          (by linarith [Real.pi_pos])
          (by unfold TAU; linarith [Real.pi_pos])]
      unfold PI; ring
    have a3 : Point.angle ⟨2, 2⟩ ⟨1, 1⟩ ⟨0, 1⟩ =
        Real.arctan (1 / 2) - π / 4 := by
      unfold Point.angle
      rw [phD, phC,
        fmod_eq_of_decomp _ TAU (Real.arctan (1 / 2) + 3 * π / 4) 0
          (by unfold PI TAU; push_cast; ring)
          (by linarith [Real.pi_pos])
          (by unfold TAU; linarith [Real.pi_pos])]
      unfold PI; ring
    have a4 : Point.angle ⟨2, 2⟩ ⟨0, 1⟩ ⟨0, 0⟩ =
        π / 4 - Real.arctan (1 / 2) := by
      unfold Point.angle
      rw [phA, phD,
        fmod_eq_of_decomp _ TAU (5 * π / 4 - Real.arctan (1 / 2)) 0
          (by unfold PI TAU; push_cast; ring)
          (by linarith [Real.pi_pos])
          (by unfold TAU; linarith [Real.pi_pos])]
      unfold PI; ring
    rw [contains_of_no_onseg _ _ _ hno, hit]
    simp only [List.map]
    simp only [a1, a2, a3, a4]
    have hsum : Polygon.fsum [Real.arctan 2 - π / 4, π / 4 - Real.arctan 2,
        Real.arctan (1 / 2) - π / 4, π / 4 - Real.arctan (1 / 2)] = 0 := by
      unfold Polygon.fsum
      simp only [List.sum_cons, List.sum_nil]
      ring
    simp only [hsum]
    rw [if_neg (show ¬ |(0 : ℝ)| > EPS by
      rw [abs_zero]
      exact not_lt.mpr (le_of_lt EPS_pos))]
  · exact contains_of_onseg _ _ _ ⟨(⟨0, 1⟩, ⟨0, 0⟩), hmem4, c4on⟩
  · exact contains_of_onseg _ _ _ ⟨(⟨0, 1⟩, ⟨0, 0⟩), hmem4, c4on⟩

/-- C2 witness: the short-circuit branch applied to a one-vertex polygon
whose single cyclic edge is degenerate at the query point. -/
theorem contains_winding_spec_w :
    Polygon.contains [⟨0, 0⟩] ⟨0, 0⟩ true = true :=
  (contains_winding_spec.1 [⟨0, 0⟩] ⟨0, 0⟩ true).1
    ⟨(⟨0, 0⟩, ⟨0, 0⟩), List.mem_cons_self _ _, by
      apply ccw_eq_on_seg
      · norm_num [Point.det, EPS]
      · norm_num [Point.det, EPS]
      · norm_num [Point.dot, EPS]
      · unfold Point.norm
        rw [cabs_val ((⟨0, 0⟩ : Point) - ⟨0, 0⟩) 0 le_rfl (by norm_num)]
        norm_num [EPS]⟩

/-- C4 witness: the amended theorem applied to the unit segment and a
concrete query point. -/
theorem closest_point_dist_total_w :
    (Segment.closest_point ⟨⟨0, 0⟩, ⟨1, 0⟩⟩ ⟨5, 5⟩).isSome = true ∧
    (Segment.dist ⟨⟨0, 0⟩, ⟨1, 0⟩⟩ ⟨5, 5⟩).isSome = true :=
  closest_point_dist_total ⟨⟨0, 0⟩, ⟨1, 0⟩⟩ ⟨5, 5⟩
    (by
      show Real.sqrt (((0 : ℝ) - 1) ^ 2 + ((0 : ℝ) - 0) ^ 2) ≠ 0
      rw [show ((0 : ℝ) - 1) ^ 2 + ((0 : ℝ) - 0) ^ 2 = 1 by norm_num,
        Real.sqrt_one]
      norm_num)

end
